import Mathlib

/-!
# braker: inventory parser and extraction orchestrator

A shallow embedding of `braker.go`:

* `parseTrackInfo` (lines 36-69) with the two package-level regular expressions
  `extractTitleRegexp` and `durationRegexp` (lines 18-19);
* `extractTracks` (lines 71-135): the per-track procedure and the drain of the error channel.

Go strings are modelled by `String` (lists of characters).  Both regular expressions only
test ASCII characters next to an arbitrary non-newline prefix, so matching on characters and
matching on bytes agree.  `int16` is modelled by `Int` with explicit wrap-around (`toInt16`).
-/

namespace Braker

/-! ## Regular expressions -/

/-- The class `\d` of Go's regexp syntax: the ASCII digits. -/
def isDigit (c : Char) : Bool :=
  decide ('0'.toNat ≤ c.toNat) && decide (c.toNat ≤ '9'.toNat)

/-- The class `\s` of Go's regexp syntax: `[\t\n\f\r ]`. -/
def isSpace (c : Char) : Bool :=
  c == '\t' || c == '\n' || c == '\x0c' || c == '\r' || c == ' '

/-- Remove the literal `p` from the front of `s`; `none` when `s` does not start with `p`. -/
def stripLit : List Char → List Char → Option (List Char)
  | [], s => some s
  | _ :: _, [] => none
  | p :: ps, c :: cs => if p = c then stripLit ps cs else none

/-- The part `title\s+(\d+)\:` of `extractTitleRegexp`, matched at the front of `s`; returns
the text captured by the group.  `\s+` and `\d+` are greedy and the class that follows each of
them is disjoint from it, so only the maximal runs can lead to a match. -/
def titleTail (s : List Char) : Option (List Char) :=
  match stripLit "title".data s with
  | none => none
  | some r =>
    if r.takeWhile isSpace = [] then none
    else
      let r1 := r.dropWhile isSpace
      if r1.takeWhile isDigit = [] then none
      else
        match r1.dropWhile isDigit with
        | ':' :: _ => some (r1.takeWhile isDigit)
        | _ => none

/-- The lazy `.+?` of `extractTitleRegexp` after its first character: try the rest of the
pattern here, and only when that fails let `.` take one more character (never a newline). -/
def scanTitle : List Char → Option (List Char)
  | [] => none
  | c :: cs =>
    match titleTail (c :: cs) with
    | some d => some d
    | none => if c = '\n' then none else scanTitle cs

/-- The regular expression `^.+?title\s+(\d+)\:` run on a line: the text of group 1 of the
leftmost-first match, `none` when the line does not match. -/
def titleMatch : List Char → Option (List Char)
  | [] => none
  | c :: cs => if c = '\n' then none else scanTitle cs

/-- The part `duration: (\d+):(\d+):\d+$` of `durationRegexp`, matched at the front of `s`;
returns the texts captured by groups 1 and 2. -/
def durationTail (s : List Char) : Option (List Char × List Char) :=
  match stripLit "duration: ".data s with
  | none => none
  | some r =>
    if r.takeWhile isDigit = [] then none
    else
      match r.dropWhile isDigit with
      | ':' :: r1 =>
        if r1.takeWhile isDigit = [] then none
        else
          match r1.dropWhile isDigit with
          | ':' :: r2 =>
            if r2.takeWhile isDigit = [] then none
            else
              match r2.dropWhile isDigit with
              | [] => some (r.takeWhile isDigit, r1.takeWhile isDigit)
              | _ :: _ => none
          | _ => none
      | _ => none

/-- The lazy `.+?` of `durationRegexp` after its first character. -/
def scanDuration : List Char → Option (List Char × List Char)
  | [] => none
  | c :: cs =>
    match durationTail (c :: cs) with
    | some d => some d
    | none => if c = '\n' then none else scanDuration cs

/-- The regular expression `^.+?duration: (\d+):(\d+):\d+$` run on a line: the texts of groups
1 and 2 of the leftmost-first match, `none` when the line does not match. -/
def durationMatch : List Char → Option (List Char × List Char)
  | [] => none
  | c :: cs => if c = '\n' then none else scanDuration cs

/-- The call `extractTitleRegexp.FindAllStringSubmatch(line, 1)`, reduced to `matches[0][1]`;
`none` stands for the nil result. -/
def extractTitle (line : String) : Option String :=
  (titleMatch line.data).map String.mk

/-- The call `durationRegexp.FindAllStringSubmatch(line, 1)`, reduced to
`(matches[0][1], matches[0][2])`. -/
def extractDuration (line : String) : Option (String × String) :=
  (durationMatch line.data).map fun p => (String.mk p.1, String.mk p.2)

/-! ## Library functions used by the parser -/

/-- Value of a run of decimal digits, `none` on an empty run or a character that is no digit
(the syntax error of `strconv.ParseUint` in base 10). -/
def digitsValue : List Char → Option Nat
  | [] => none
  | cs => cs.foldl
      (fun acc c => acc.bind fun n => if isDigit c then some (n * 10 + (c.toNat - '0'.toNat)) else none)
      (some 0)

/-- The call `strconv.ParseInt(s, 10, 16)`: `none` when it returns an error (bad syntax, or a value
outside `-32768 .. 32767`), the value otherwise. -/
def parseInt16 (s : String) : Option Int :=
  match s.data with
  | [] => none
  | c :: cs =>
    if c = '-' then
      match digitsValue cs with
      | some n => if n ≤ 32768 then some (-(n : Int)) else none
      | none => none
    else if c = '+' then
      match digitsValue cs with
      | some n => if n < 32768 then some (n : Int) else none
      | none => none
    else
      match digitsValue (c :: cs) with
      | some n => if n < 32768 then some (n : Int) else none
      | none => none

/-- The conversion `int16(x)` of a wider integer: the value modulo `2^16`, read as signed. -/
def toInt16 (x : Int) : Int :=
  (x + 32768) % 65536 - 32768

/-- The call `strings.Split(s, "\n")` on the characters of `s`. -/
def splitNL : List Char → List (List Char)
  | [] => [[]]
  | c :: cs =>
    if c = '\n' then [] :: splitNL cs
    else
      match splitNL cs with
      | [] => [[c]]
      | l :: ls => (c :: l) :: ls

/-- The call `strings.Split(output, "\n")`. -/
def splitLines (output : String) : List String :=
  (splitNL output.data).map String.mk

/-! ## The parser -/

/-- The Go struct `Track`. -/
structure Track where
  id : String
  minutes : Int
  deriving DecidableEq, Repr

/-- What a call of `parseTrackInfo` does: return `(tracks, nil)`, return `(nil, err)` with
`err.Error() = msg`, or stop in the run-time error `index out of range [-1]`. -/
inductive ParseResult where
  | ok (tracks : List Track)
  | error (msg : String)
  | indexOutOfRange
  deriving DecidableEq, Repr

/-- The assignment `tracks[len(tracks)-1].minutes = m`; `none` when `tracks` is empty. -/
def setLastMinutes : List Track → Int → Option (List Track)
  | [], _ => none
  | [t], m => some [{ t with minutes := m }]
  | t :: u :: rest, m => (setLastMinutes (u :: rest) m).map (t :: ·)

/-- The loop of `parseTrackInfo` (lines 39-66), started with the tracks collected so far. -/
def parseLines (tracks : List Track) : List String → ParseResult
  | [] => .ok tracks
  | line :: rest =>
    match extractTitle line with
    | some id => parseLines (tracks ++ [{ id := id, minutes := 0 }]) rest
    | none =>
      match extractDuration line with
      | none => parseLines tracks rest
      | some (hoursStr, minutesStr) =>
        match parseInt16 hoursStr with
        | none =>
          .error ("Failed to parse minutes from line " ++ line ++ ", hours " ++ hoursStr)
        | some hours =>
          match parseInt16 minutesStr with
          | none =>
            .error ("Failed to parse minutes from line " ++ line ++ ", minute " ++ minutesStr)
          | some minutes =>
            match setLastMinutes tracks (toInt16 (minutes + hours * 60)) with
            | none => .indexOutOfRange
            | some tracks1 => parseLines tracks1 rest

/-- The function `parseTrackInfo` (lines 36-69). -/
def parseTrackInfo (output : String) : ParseResult :=
  parseLines [] (splitLines output)

/-! ## Vocabulary of the specification -/

/-- A title line: a line that `extractTitleRegexp` matches. -/
def isTitleLine (line : String) : Bool :=
  (extractTitle line).isSome

/-- The lines that come before the next title line. -/
def body (lines : List String) : List String :=
  lines.takeWhile fun l => !isTitleLine l

/-- The captured hour and minute texts of the duration lines among `lines`. -/
def durationsOf (lines : List String) : List (String × String) :=
  lines.filterMap extractDuration

/-- The title lines of a report in order, each with the id it captures and the lines
between it and the next title line (or the end of the report). -/
def segments : List String → List (String × List String)
  | [] => []
  | line :: rest =>
    match extractTitle line with
    | some id => (id, body rest) :: segments rest
    | none => segments rest

/-- A duration line whose hour or minute field `strconv.ParseInt` rejects, with the error
text `parseTrackInfo` builds for it. -/
def badDuration (line : String) : Option String :=
  match extractTitle line with
  | some _ => none
  | none =>
    match extractDuration line with
    | none => none
    | some (hoursStr, minutesStr) =>
      match parseInt16 hoursStr with
      | none => some ("Failed to parse minutes from line " ++ line ++ ", hours " ++ hoursStr)
      | some _ =>
        match parseInt16 minutesStr with
        | none => some ("Failed to parse minutes from line " ++ line ++ ", minute " ++ minutesStr)
        | some _ => none

/-- No duration line stands before the first title line. -/
def OrphanFree (lines : List String) : Prop :=
  ∀ l ∈ body lines, extractDuration l = none

instance (lines : List String) : Decidable (OrphanFree lines) := by
  unfold OrphanFree
  infer_instance

/-- The minutes of a track once the lines `lines` that follow its title line have been read,
for a track that had `before` minutes: unchanged without a duration line among them, and
otherwise `MM + HH*60` of the last duration line, as long as that number fits 16 bits. -/
def MinutesFrom (before : Int) (lines : List String) (minutes : Int) : Prop :=
  match (durationsOf lines).getLast? with
  | none => minutes = before
  | some (hoursStr, minutesStr) =>
    ∃ hh mm : Nat, digitsValue hoursStr.data = some hh ∧ digitsValue minutesStr.data = some mm ∧
      (mm + hh * 60 ≤ 32767 → minutes = ((mm + hh * 60 : Nat) : Int))

/-- The minutes of the first duration line among `lines`, zero without one: what "the nearest
duration line that follows the title line" gives. -/
def nearestMinutes (lines : List String) : Int :=
  match (durationsOf lines).head? with
  | none => 0
  | some (hoursStr, minutesStr) =>
    match digitsValue hoursStr.data, digitsValue minutesStr.data with
    | some hh, some mm => ((mm + hh * 60 : Nat) : Int)
    | _, _ => 0

/-- What `extractTitleRegexp` describes: some leading text without a newline, `title`,
whitespace, one or more digits (the capture), a colon. -/
def TitlePattern (line capture : List Char) : Prop :=
  ∃ pre ws rest, (pre ≠ [] ∧ '\n' ∉ pre) ∧ (ws ≠ [] ∧ ∀ c ∈ ws, isSpace c = true)
    ∧ (capture ≠ [] ∧ ∀ c ∈ capture, isDigit c = true)
    ∧ line = pre ++ "title".data ++ ws ++ capture ++ ':' :: rest

/-- What `durationRegexp` describes: some leading text without a newline, `duration: `, then
three runs of digits separated by colons, the first two captured, up to the end of the line. -/
def DurationPattern (line hours minutes : List Char) : Prop :=
  ∃ pre seconds, (pre ≠ [] ∧ '\n' ∉ pre) ∧ (hours ≠ [] ∧ ∀ c ∈ hours, isDigit c = true)
    ∧ (minutes ≠ [] ∧ ∀ c ∈ minutes, isDigit c = true)
    ∧ (seconds ≠ [] ∧ ∀ c ∈ seconds, isDigit c = true)
    ∧ line = pre ++ "duration: ".data ++ hours ++ ':' :: minutes ++ ':' :: seconds

/-! ## The extraction orchestrator -/

/-- The path helpers `extractTracks` calls: `os.Getenv("HOME")`, `path.Join`, `path.Base`. -/
structure Env where
  home : String
  join : List String → String
  base : String → String

/-- What the goroutines of one run of `extractTracks` get back from the outside world; the
goroutine started for `tracks[i]` has number `i`.
* `statBefore i p`: its first `os.Stat(p)` returns a nil error (line 85);
* `run i argv`: its `cmd.Run()` of the command line `argv`, `none` for a nil error and
  `some (err.Error())` otherwise (line 102);
* `statAfter i p`: its second `os.Stat(p)` returns a nil error (line 107). -/
structure Run where
  statBefore : Nat → String → Bool
  run : Nat → List String → Option String
  statAfter : Nat → String → Bool

/-- How the goroutine of one track ends. -/
inductive Outcome where
  | skipped
  | converted
  | failed (text : String)
  deriving DecidableEq, Repr

/-- The path `outputFile` of line 83. -/
def outputFile (env : Env) (dvdPath handbrakePreset : String) (track : Track) : String :=
  env.join [env.home, "/Desktop",
    handbrakePreset ++ "_" ++ env.base dvdPath ++ "_" ++ track.id ++ ".mp4"]

/-- The command line of line 97: the engine, then its arguments. -/
def commandLine (env : Env) (dvdPath handbrakePath handbrakePreset : String) (track : Track) :
    List String :=
  [handbrakePath, "-t", track.id, "-i", env.join [dvdPath, "VIDEO_TS"],
    "--preset", handbrakePreset, "-o", outputFile env dvdPath handbrakePreset track]

/-- The body of the goroutine of lines 78-111, run for `tracks[i]`. -/
def trackProc (env : Env) (r : Run) (dvdPath handbrakePath handbrakePreset : String)
    (i : Nat) (track : Track) : Outcome :=
  if r.statBefore i (outputFile env dvdPath handbrakePreset track) then .skipped
  else
    match r.run i (commandLine env dvdPath handbrakePath handbrakePreset track) with
    | some e => .failed e
    | none =>
      if r.statAfter i (outputFile env dvdPath handbrakePreset track) then .converted
      else .failed ("Failed to create track " ++ outputFile env dvdPath handbrakePreset track)

/-- The text of the error a goroutine sends on `errorChan`, if it sends one. -/
def Outcome.sent : Outcome → Option String
  | .failed e => some e
  | _ => none

/-- Whether the goroutine ran the engine (`cmd.Run()` was reached). -/
def Outcome.invoked : Outcome → Bool
  | .skipped => false
  | _ => true

/-- The outcome of goroutine `i`, `none` when there is no such track. -/
def outcomeAt (env : Env) (r : Run) (dvdPath handbrakePath handbrakePreset : String)
    (tracks : List Track) (i : Nat) : Option Outcome :=
  tracks[i]?.map (trackProc env r dvdPath handbrakePath handbrakePreset i)

/-- The errors the goroutines record, in the order of the tracks. -/
def failures (env : Env) (r : Run) (dvdPath handbrakePath handbrakePreset : String)
    (tracks : List Track) : List String :=
  (List.range tracks.length).filterMap fun i =>
    (outcomeAt env r dvdPath handbrakePath handbrakePreset tracks i).bind Outcome.sent

/-- The content of `errorChan` after `wg.Wait()`, when the goroutines reach their send in
the order `sched` (a permutation of the goroutine numbers). -/
def channel (env : Env) (r : Run) (dvdPath handbrakePath handbrakePreset : String)
    (tracks : List Track) (sched : List Nat) : List String :=
  sched.filterMap fun i =>
    (outcomeAt env r dvdPath handbrakePath handbrakePreset tracks i).bind Outcome.sent

/-- The loop `extract` of lines 119-128: the buffer after the channel has been drained. -/
def drain : List String → String → String
  | [], buf => buf
  | e :: es, buf => drain es (buf ++ e ++ "\n")

/-- The function `extractTracks` (lines 71-135): `none` for a nil error, `some text` for
the error `errors.New(text)`. -/
def extractTracks (env : Env) (r : Run) (dvdPath handbrakePath handbrakePreset : String)
    (tracks : List Track) (sched : List Nat) : Option String :=
  let finalError := drain (channel env r dvdPath handbrakePath handbrakePreset tracks sched) ""
  if finalError.length > 0 then some finalError else none

/-- The number of engine invocations of one run. -/
def invocations (env : Env) (r : Run) (dvdPath handbrakePath handbrakePreset : String)
    (tracks : List Track) : Nat :=
  ((List.range tracks.length).filter fun i =>
    match outcomeAt env r dvdPath handbrakePath handbrakePreset tracks i with
    | some o => o.invoked
    | none => false).length

/-- No file that a goroutine of the first run found in place is missing when the second run
looks for it. -/
def NoFilesRemoved (r1 r2 : Run) : Prop :=
  ∀ i p, r1.statBefore i p = true ∨ r1.statAfter i p = true → r2.statBefore i p = true

/-! ## Concrete inputs -/

/-- One path element without its leading slash. -/
def stripSlash (s : String) : String :=
  match s.data with
  | '/' :: cs => String.mk cs
  | _ => s

/-- The elements of a path put together with single slashes: `path.Join` on the paths used
below. -/
def demoJoin : List String → String
  | [] => ""
  | p :: ps => ps.foldl (fun acc q => acc ++ "/" ++ stripSlash q) p

/-- The text after the last slash: `path.Base` on the paths used below. -/
def demoBase (p : String) : String :=
  String.mk (p.data.foldl (fun acc c => if c = '/' then [] else acc ++ [c]) [])

/-- A home directory `/home/u` with the two path helpers above. -/
def demoEnv : Env where
  home := "/home/u"
  join := demoJoin
  base := demoBase

/-- An engine that always exits with status 1 and a disk on which no output file appears. -/
def failingRun : Run where
  statBefore := fun _ _ => false
  run := fun _ _ => some "exit status 1"
  statAfter := fun _ _ => false

/-- An engine that reports success without writing its output file. -/
def silentRun : Run where
  statBefore := fun _ _ => false
  run := fun _ _ => none
  statAfter := fun _ _ => false

/-- An engine that fails with an error whose text is empty. -/
def emptyErrorRun : Run where
  statBefore := fun _ _ => false
  run := fun _ _ => some ""
  statAfter := fun _ _ => false

/-- An engine that writes every output file and reports success, on a disk without any of
the output files. -/
def convertingRun : Run where
  statBefore := fun _ _ => false
  run := fun _ _ => none
  statAfter := fun _ _ => true

/-- A later run that finds every output file in place; its engine would fail if it ran. -/
def doneRun : Run where
  statBefore := fun _ _ => true
  run := fun _ _ => some "exit status 1"
  statAfter := fun _ _ => true

/-- Three tracks to convert; the engine fails on the second (goroutine 1) only. -/
def secondFailsRun : Run where
  statBefore := fun _ _ => false
  run := fun i _ => if i = 1 then some "exit status 1" else none
  statAfter := fun i _ => decide (i ≠ 1)

/-- The three tracks of the partial-failure example. -/
def threeTracks : List Track :=
  [⟨"1", 10⟩, ⟨"2", 20⟩, ⟨"3", 30⟩]

/-! ## Lemmas on the regular expressions -/

theorem stripLit_some : ∀ (p s r : List Char), stripLit p s = some r → s = p ++ r := by
  intro p
  induction p with
  | nil =>
    intro s r h
    simp only [stripLit, Option.some.injEq] at h
    simp [h]
  | cons a p ih =>
    intro s r h
    cases s with
    | nil => simp [stripLit] at h
    | cons c cs =>
      simp only [stripLit] at h
      split at h
      · rename_i hac
        rw [hac, ih cs r h]
        rfl
      · cases h

theorem stripLit_append : ∀ (p r : List Char), stripLit p (p ++ r) = some r := by
  intro p
  induction p with
  | nil => intro r; cases r <;> rfl
  | cons a p ih =>
    intro r
    simp only [List.cons_append, stripLit, if_true]
    exact ih r

theorem isDigit_not_space {c : Char} (h : isDigit c = true) : ¬ (isSpace c = true) := by
  intro hs
  simp only [isSpace, Bool.or_eq_true, beq_iff_eq] at hs
  rcases hs with (((rfl | rfl) | rfl) | rfl) | rfl <;> revert h <;> decide

theorem takeWhile_run {p : Char → Bool} (run rest : List Char) (hrun : ∀ c ∈ run, p c = true)
    (hrest : ∀ c r, rest = c :: r → ¬ (p c = true)) :
    (run ++ rest).takeWhile p = run ∧ (run ++ rest).dropWhile p = rest := by
  rw [List.takeWhile_append_of_pos hrun, List.dropWhile_append_of_pos hrun]
  cases rest with
  | nil => simp
  | cons c r =>
    have := hrest c r rfl
    simp [List.takeWhile_cons_of_neg this, List.dropWhile_cons_of_neg this]

theorem titleTail_sound {s d : List Char} (h : titleTail s = some d) :
    ∃ ws rest, (ws ≠ [] ∧ ∀ c ∈ ws, isSpace c = true) ∧ (d ≠ [] ∧ ∀ c ∈ d, isDigit c = true)
      ∧ s = "title".data ++ ws ++ d ++ ':' :: rest := by
  unfold titleTail at h
  split at h
  · cases h
  · rename_i r hr
    split at h
    · cases h
    · rename_i hws
      simp only at h
      split at h
      · cases h
      · rename_i hds
        split at h
        · rename_i rest hrest
          cases h
          refine ⟨r.takeWhile isSpace, rest, ⟨hws, fun c hc => List.mem_takeWhile_imp hc⟩,
            ⟨hds, fun c hc => List.mem_takeWhile_imp hc⟩, ?_⟩
          have e1 := List.takeWhile_append_dropWhile isSpace r
          have e2 := List.takeWhile_append_dropWhile isDigit (r.dropWhile isSpace)
          rw [hrest] at e2
          rw [stripLit_some _ _ _ hr]
          simp only [List.append_assoc, e2, e1]
        · cases h

theorem titleTail_complete {ws d : List Char} (rest : List Char)
    (hws : ws ≠ [] ∧ ∀ c ∈ ws, isSpace c = true) (hd : d ≠ [] ∧ ∀ c ∈ d, isDigit c = true) :
    titleTail ("title".data ++ ws ++ d ++ ':' :: rest) = some d := by
  have h1 := takeWhile_run (p := isSpace) ws (d ++ ':' :: rest) hws.2 (by
    intro c r e
    cases d with
    | nil => exact absurd rfl hd.1
    | cons a d1 =>
      simp only [List.cons_append, List.cons.injEq] at e
      rw [← e.1]
      exact isDigit_not_space (hd.2 a (List.mem_cons_self _ _)))
  have h2 := takeWhile_run (p := isDigit) d (':' :: rest) hd.2 (by
    intro c r e
    simp only [List.cons.injEq] at e
    rw [← e.1]
    decide)
  unfold titleTail
  rw [List.append_assoc, List.append_assoc, stripLit_append]
  simp only [h1.1, h1.2, h2.1, h2.2, hws.1, hd.1, if_false]

theorem scanTitle_sound {s d : List Char} (h : scanTitle s = some d) :
    ∃ pre tail, '\n' ∉ pre ∧ s = pre ++ tail ∧ titleTail tail = some d := by
  induction s with
  | nil => simp [scanTitle] at h
  | cons c cs ih =>
    unfold scanTitle at h
    split at h
    · rename_i d1 hd1
      cases h
      exact ⟨[], c :: cs, List.not_mem_nil _, rfl, hd1⟩
    · split at h
      · cases h
      · rename_i hc
        obtain ⟨pre, tail, hn, e, ht⟩ := ih h
        refine ⟨c :: pre, tail, ?_, by rw [e]; rfl, ht⟩
        intro hmem
        rcases List.mem_cons.mp hmem with hx | hx
        · exact hc hx.symm
        · exact hn hx

theorem scanTitle_complete (pre : List Char) {tail d : List Char} (hn : '\n' ∉ pre)
    (ht : titleTail tail = some d) : (scanTitle (pre ++ tail)).isSome = true := by
  induction pre with
  | nil =>
    cases tail with
    | nil => simp [titleTail, stripLit] at ht
    | cons c cs =>
      simp only [List.nil_append, scanTitle, ht]
      rfl
  | cons c pre ih =>
    simp only [List.cons_append, scanTitle]
    split
    · rfl
    · have hc : c ≠ '\n' := fun e => hn (by rw [e]; exact List.mem_cons_self _ _)
      rw [if_neg hc]
      exact ih (fun hmem => hn (List.mem_cons_of_mem _ hmem))

/-- A capture of `titleMatch` comes from a match of the title pattern. -/
theorem titleMatch_sound {line d : List Char} (h : titleMatch line = some d) :
    TitlePattern line d := by
  cases line with
  | nil => simp [titleMatch] at h
  | cons c cs =>
    simp only [titleMatch] at h
    split at h
    · cases h
    · rename_i hc
      obtain ⟨pre, tail, hn, e, ht⟩ := scanTitle_sound h
      obtain ⟨ws, rest, hws, hd, et⟩ := titleTail_sound ht
      refine ⟨c :: pre, ws, rest, ⟨List.cons_ne_nil _ _, ?_⟩, hws, hd, ?_⟩
      · intro hmem
        rcases List.mem_cons.mp hmem with hx | hx
        · exact hc hx.symm
        · exact hn hx
      · rw [e, et]
        simp [List.append_assoc]

/-- A line that matches the title pattern is matched by `titleMatch`. -/
theorem titleMatch_complete {line d : List Char} (h : TitlePattern line d) :
    (titleMatch line).isSome = true := by
  obtain ⟨pre, ws, rest, ⟨hpre, hn⟩, hws, hd, e⟩ := h
  cases pre with
  | nil => exact absurd rfl hpre
  | cons c pre =>
    have hc : c ≠ '\n' := fun e1 => hn (by rw [e1]; exact List.mem_cons_self _ _)
    rw [e]
    simp only [List.cons_append, List.append_assoc, titleMatch, if_neg hc]
    have := scanTitle_complete pre (fun hmem => hn (List.mem_cons_of_mem _ hmem))
      (titleTail_complete rest hws hd)
    simpa [List.append_assoc] using this

/-! ## Lemmas on the parser -/

theorem setLastMinutes_concat (init : List Track) (t : Track) (m : Int) :
    setLastMinutes (init ++ [t]) m = some (init ++ [{ t with minutes := m }]) := by
  induction init with
  | nil => rfl
  | cons a as ih =>
    cases as with
    | nil => simp [setLastMinutes]
    | cons b bs =>
      simp only [List.cons_append] at ih ⊢
      simp [setLastMinutes, ih]

theorem nil_or_snoc (ts : List Track) : ts = [] ∨ ∃ init t, ts = init ++ [t] := by
  rcases List.eq_nil_or_concat ts with h | ⟨init, t, h⟩
  · exact Or.inl h
  · exact Or.inr ⟨init, t, by rw [h, List.concat_eq_append]⟩

theorem setLastMinutes_some {ts ts1 : List Track} {m : Int}
    (h : setLastMinutes ts m = some ts1) :
    ∃ init t, ts = init ++ [t] ∧ ts1 = init ++ [{ t with minutes := m }] := by
  rcases nil_or_snoc ts with rfl | ⟨init, t, rfl⟩
  · simp [setLastMinutes] at h
  · rw [setLastMinutes_concat] at h
    exact ⟨init, t, rfl, (Option.some.inj h).symm⟩

theorem setLastMinutes_eq_none {ts : List Track} {m : Int}
    (h : setLastMinutes ts m = none) : ts = [] := by
  rcases nil_or_snoc ts with rfl | ⟨init, t, rfl⟩
  · rfl
  · rw [setLastMinutes_concat] at h
    exact absurd h (by simp)

theorem parseLines_title {line id : String} (acc : List Track) (rest : List String)
    (ht : extractTitle line = some id) :
    parseLines acc (line :: rest) = parseLines (acc ++ [{ id := id, minutes := 0 }]) rest := by
  simp only [parseLines, ht]

theorem parseLines_other {line : String} (acc : List Track) (rest : List String)
    (ht : extractTitle line = none) (hd : extractDuration line = none) :
    parseLines acc (line :: rest) = parseLines acc rest := by
  simp only [parseLines, ht, hd]

theorem parseLines_badHours {line hs ms : String} (acc : List Track) (rest : List String)
    (ht : extractTitle line = none) (hd : extractDuration line = some (hs, ms))
    (hh : parseInt16 hs = none) :
    parseLines acc (line :: rest)
      = .error ("Failed to parse minutes from line " ++ line ++ ", hours " ++ hs) := by
  simp only [parseLines, ht, hd, hh]

theorem parseLines_badMinutes {line hs ms : String} {h : Int} (acc : List Track)
    (rest : List String)
    (ht : extractTitle line = none) (hd : extractDuration line = some (hs, ms))
    (hh : parseInt16 hs = some h) (hm : parseInt16 ms = none) :
    parseLines acc (line :: rest)
      = .error ("Failed to parse minutes from line " ++ line ++ ", minute " ++ ms) := by
  simp only [parseLines, ht, hd, hh, hm]

theorem parseLines_orphan {line hs ms : String} {h m : Int} (rest : List String)
    (ht : extractTitle line = none) (hd : extractDuration line = some (hs, ms))
    (hh : parseInt16 hs = some h) (hm : parseInt16 ms = some m) :
    parseLines [] (line :: rest) = .indexOutOfRange := by
  simp only [parseLines, ht, hd, hh, hm, setLastMinutes]

theorem parseLines_duration {line hs ms : String} {h m : Int} (init : List Track) (t : Track)
    (rest : List String)
    (ht : extractTitle line = none) (hd : extractDuration line = some (hs, ms))
    (hh : parseInt16 hs = some h) (hm : parseInt16 ms = some m) :
    parseLines (init ++ [t]) (line :: rest)
      = parseLines (init ++ [{ t with minutes := toInt16 (m + h * 60) }]) rest := by
  simp only [parseLines, ht, hd, hh, hm, setLastMinutes_concat]

/-- The ids collected by the loop: those it started with, then one per title line. -/
theorem parseLines_ids (lines : List String) :
    ∀ (acc ts : List Track), parseLines acc lines = .ok ts →
      ts.map Track.id = acc.map Track.id ++ lines.filterMap extractTitle := by
  induction lines with
  | nil =>
    intro acc ts h
    simp only [parseLines, ParseResult.ok.injEq] at h
    simp [h]
  | cons line rest ih =>
    intro acc ts h
    cases ht : extractTitle line with
    | some id =>
      rw [parseLines_title acc rest ht] at h
      rw [ih _ _ h]
      simp [List.filterMap_cons, ht]
    | none =>
      cases hd : extractDuration line with
      | none =>
        rw [parseLines_other acc rest ht hd] at h
        rw [ih _ _ h]
        simp [List.filterMap_cons, ht]
      | some p =>
        obtain ⟨hs, ms⟩ := p
        cases hh : parseInt16 hs with
        | none => rw [parseLines_badHours acc rest ht hd hh] at h; cases h
        | some hv =>
          cases hm : parseInt16 ms with
          | none => rw [parseLines_badMinutes acc rest ht hd hh hm] at h; cases h
          | some mv =>
            rcases nil_or_snoc acc with rfl | ⟨init, t, rfl⟩
            · rw [parseLines_orphan rest ht hd hh hm] at h; cases h
            · rw [parseLines_duration init t rest ht hd hh hm] at h
              rw [ih _ _ h]
              simp [List.filterMap_cons, ht]

/-! ## Claims on the parser -/

/-- C1: whenever `parseTrackInfo` returns a track list, the ids of the tracks, in order, are
the digit strings captured on the title lines of the input, in line order; so there are as
many tracks as title lines. -/
theorem parseTrackInfo_ids (output : String) (tracks : List Track)
    (h : parseTrackInfo output = .ok tracks) :
    tracks.map Track.id = (splitLines output).filterMap extractTitle
      ∧ tracks.length = ((splitLines output).filter isTitleLine).length := by
  have hids := parseLines_ids (splitLines output) [] tracks h
  simp only [List.map_nil, List.nil_append] at hids
  refine ⟨hids, ?_⟩
  have hlen := congrArg List.length hids
  rw [List.length_map] at hlen
  rw [hlen]
  generalize splitLines output = lines
  induction lines with
  | nil => rfl
  | cons l ls ih =>
    cases hl : extractTitle l <;> simp [List.filterMap_cons, List.filter_cons, isTitleLine, hl, ih]

/-- C1 at the report of the end-to-end fixture. -/
theorem parseTrackInfo_ids_witness :
    [Track.mk "2" 1, Track.mk "4" 26].map Track.id
        = (splitLines "+ title 2:\n  + duration: 00:01:00\n+ title 4:\n  + duration: 00:26:00").filterMap
            extractTitle
      ∧ [Track.mk "2" 1, Track.mk "4" 26].length
        = ((splitLines "+ title 2:\n  + duration: 00:01:00\n+ title 4:\n  + duration: 00:26:00").filter
            isTitleLine).length :=
  parseTrackInfo_ids "+ title 2:\n  + duration: 00:01:00\n+ title 4:\n  + duration: 00:26:00"
    [⟨"2", 1⟩, ⟨"4", 26⟩] (by decide)

/-! ## Lemmas on the captured fields -/

theorem isDigit_ne_sign {c : Char} (h : isDigit c = true) : c ≠ '-' ∧ c ≠ '+' := by
  constructor <;> (rintro rfl; revert h; decide)

theorem foldl_digits (cs : List Char) (hd : ∀ c ∈ cs, isDigit c = true) :
    ∀ n : Nat, ∃ k : Nat, cs.foldl (fun acc c => acc.bind fun n =>
      if isDigit c then some (n * 10 + (c.toNat - '0'.toNat)) else none) (some n) = some k := by
  induction cs with
  | nil => intro n; exact ⟨n, rfl⟩
  | cons c cs ih =>
    intro n
    have hc : isDigit c = true := hd c (List.mem_cons_self _ _)
    simp only [List.foldl_cons, Option.some_bind, hc, if_true]
    exact ih (fun d hdm => hd d (List.mem_cons_of_mem _ hdm)) _

theorem digitsValue_digits {cs : List Char} (hne : cs ≠ [])
    (hd : ∀ c ∈ cs, isDigit c = true) : ∃ k : Nat, digitsValue cs = some k := by
  cases cs with
  | nil => exact absurd rfl hne
  | cons c cs => exact foldl_digits (c :: cs) hd 0

theorem parseInt16_digits {cs : List Char} {k : Nat} (hne : cs ≠ [])
    (hd : ∀ c ∈ cs, isDigit c = true) (hk : digitsValue cs = some k) :
    parseInt16 (String.mk cs) = if k < 32768 then some (k : Int) else none := by
  cases cs with
  | nil => exact absurd rfl hne
  | cons c cs =>
    obtain ⟨h1, h2⟩ := isDigit_ne_sign (hd c (List.mem_cons_self _ _))
    simp only [parseInt16, h1, h2, if_false, hk]

theorem takeWhile_digits (s : List Char) : ∀ c ∈ s.takeWhile isDigit, isDigit c = true :=
  fun _ hc => List.mem_takeWhile_imp hc

/-- Both groups of `durationRegexp` capture non-empty runs of digits. -/
theorem durationTail_digits {s hs ms : List Char} (h : durationTail s = some (hs, ms)) :
    (hs ≠ [] ∧ ∀ c ∈ hs, isDigit c = true) ∧ (ms ≠ [] ∧ ∀ c ∈ ms, isDigit c = true) := by
  unfold durationTail at h
  split at h
  · cases h
  · split at h
    · cases h
    · split at h
      · split at h
        · cases h
        · split at h
          · split at h
            · cases h
            · split at h
              · simp only [Option.some.injEq, Prod.mk.injEq] at h
                obtain ⟨rfl, rfl⟩ := h
                exact ⟨⟨by assumption, takeWhile_digits _⟩, ⟨by assumption, takeWhile_digits _⟩⟩
              · cases h
          · cases h
      · cases h

theorem scanDuration_digits {s hs ms : List Char} (h : scanDuration s = some (hs, ms)) :
    (hs ≠ [] ∧ ∀ c ∈ hs, isDigit c = true) ∧ (ms ≠ [] ∧ ∀ c ∈ ms, isDigit c = true) := by
  induction s with
  | nil => simp [scanDuration] at h
  | cons c cs ih =>
    unfold scanDuration at h
    split at h
    · rename_i d hd
      cases h
      exact durationTail_digits hd
    · split at h
      · cases h
      · exact ih h

theorem extractDuration_digits {line hs ms : String} (h : extractDuration line = some (hs, ms)) :
    (hs.data ≠ [] ∧ ∀ c ∈ hs.data, isDigit c = true)
      ∧ (ms.data ≠ [] ∧ ∀ c ∈ ms.data, isDigit c = true) := by
  unfold extractDuration at h
  cases hm : durationMatch line.data with
  | none => rw [hm] at h; cases h
  | some p =>
    rw [hm] at h
    simp only [Option.map_some', Option.some.injEq, Prod.mk.injEq] at h
    obtain ⟨rfl, rfl⟩ := h
    cases hl : line.data with
    | nil => rw [hl] at hm; simp [durationMatch] at hm
    | cons c cs =>
      rw [hl] at hm
      simp only [durationMatch] at hm
      split at hm
      · cases hm
      · exact @scanDuration_digits _ p.1 p.2 hm

theorem durationTail_sound {s hs ms : List Char} (h : durationTail s = some (hs, ms)) :
    ∃ ss, (ss ≠ [] ∧ ∀ c ∈ ss, isDigit c = true)
      ∧ s = "duration: ".data ++ hs ++ ':' :: ms ++ ':' :: ss := by
  unfold durationTail at h
  split at h
  · cases h
  · rename_i r hr
    split at h
    · cases h
    · split at h
      · rename_i r1 hr1
        split at h
        · cases h
        · split at h
          · rename_i r2 hr2
            split at h
            · cases h
            · rename_i hss
              split at h
              · rename_i hend
                simp only [Option.some.injEq, Prod.mk.injEq] at h
                obtain ⟨rfl, rfl⟩ := h
                refine ⟨r2.takeWhile isDigit, ⟨hss, fun c hc => List.mem_takeWhile_imp hc⟩, ?_⟩
                have e1 := List.takeWhile_append_dropWhile isDigit r
                have e2 := List.takeWhile_append_dropWhile isDigit r1
                have e3 := List.takeWhile_append_dropWhile isDigit r2
                rw [hr1] at e1
                rw [hr2] at e2
                rw [hend, List.append_nil] at e3
                rw [stripLit_some _ _ _ hr]
                simp only [List.append_assoc, List.cons_append, e3, e2, e1]
              · cases h
          · cases h
      · cases h

theorem not_isDigit_colon (rest : List Char) :
    ∀ c r, ':' :: rest = c :: r → ¬ (isDigit c = true) := by
  intro c r e
  simp only [List.cons.injEq] at e
  rw [← e.1]
  decide

theorem durationTail_complete {hs ms ss : List Char}
    (hh : hs ≠ [] ∧ ∀ c ∈ hs, isDigit c = true) (hm : ms ≠ [] ∧ ∀ c ∈ ms, isDigit c = true)
    (hsec : ss ≠ [] ∧ ∀ c ∈ ss, isDigit c = true) :
    durationTail ("duration: ".data ++ hs ++ ':' :: ms ++ ':' :: ss) = some (hs, ms) := by
  have h1 := takeWhile_run (p := isDigit) hs (':' :: (ms ++ ':' :: ss)) hh.2
    (not_isDigit_colon _)
  have h2 := takeWhile_run (p := isDigit) ms (':' :: ss) hm.2 (not_isDigit_colon _)
  have h3 := takeWhile_run (p := isDigit) ss [] hsec.2 (by intro c r e; cases e)
  rw [List.append_nil] at h3
  unfold durationTail
  rw [List.append_assoc, List.append_assoc, stripLit_append]
  simp only [List.cons_append, h1.1, h1.2, h2.1, h2.2, h3.1, h3.2, hh.1, hm.1, hsec.1, if_false]

theorem scanDuration_sound {s : List Char} {p : List Char × List Char}
    (h : scanDuration s = some p) :
    ∃ pre tail, '\n' ∉ pre ∧ s = pre ++ tail ∧ durationTail tail = some p := by
  induction s with
  | nil => simp [scanDuration] at h
  | cons c cs ih =>
    unfold scanDuration at h
    split at h
    · rename_i d1 hd1
      cases h
      exact ⟨[], c :: cs, List.not_mem_nil _, rfl, hd1⟩
    · split at h
      · cases h
      · rename_i hc
        obtain ⟨pre, tail, hn, e, ht⟩ := ih h
        refine ⟨c :: pre, tail, ?_, by rw [e]; rfl, ht⟩
        intro hmem
        rcases List.mem_cons.mp hmem with hx | hx
        · exact hc hx.symm
        · exact hn hx

theorem scanDuration_complete (pre : List Char) {tail : List Char} {p : List Char × List Char}
    (hn : '\n' ∉ pre) (ht : durationTail tail = some p) :
    (scanDuration (pre ++ tail)).isSome = true := by
  induction pre with
  | nil =>
    cases tail with
    | nil => simp [durationTail, stripLit] at ht
    | cons c cs =>
      simp only [List.nil_append, scanDuration, ht]
      rfl
  | cons c pre ih =>
    simp only [List.cons_append, scanDuration]
    split
    · rfl
    · have hc : c ≠ '\n' := fun e => hn (by rw [e]; exact List.mem_cons_self _ _)
      rw [if_neg hc]
      exact ih (fun hmem => hn (List.mem_cons_of_mem _ hmem))

/-- The captures of `durationMatch` come from a match of the duration pattern. -/
theorem durationMatch_sound {line hs ms : List Char} (h : durationMatch line = some (hs, ms)) :
    DurationPattern line hs ms := by
  cases line with
  | nil => simp [durationMatch] at h
  | cons c cs =>
    simp only [durationMatch] at h
    split at h
    · cases h
    · rename_i hc
      obtain ⟨pre, tail, hn, e, ht⟩ := scanDuration_sound h
      obtain ⟨ss, hss, et⟩ := durationTail_sound ht
      obtain ⟨hh, hm⟩ := durationTail_digits ht
      refine ⟨c :: pre, ss, ⟨List.cons_ne_nil _ _, ?_⟩, hh, hm, hss, ?_⟩
      · intro hmem
        rcases List.mem_cons.mp hmem with hx | hx
        · exact hc hx.symm
        · exact hn hx
      · rw [e, et]
        simp [List.append_assoc]

/-- A line that matches the duration pattern is matched by `durationMatch`. -/
theorem durationMatch_complete {line hs ms : List Char} (h : DurationPattern line hs ms) :
    (durationMatch line).isSome = true := by
  obtain ⟨pre, ss, ⟨hpre, hn⟩, hh, hm, hss, e⟩ := h
  cases pre with
  | nil => exact absurd rfl hpre
  | cons c pre =>
    have hc : c ≠ '\n' := fun e1 => hn (by rw [e1]; exact List.mem_cons_self _ _)
    rw [e]
    simp only [List.cons_append, List.append_assoc, durationMatch, if_neg hc]
    have := scanDuration_complete pre (fun hmem => hn (List.mem_cons_of_mem _ hmem))
      (durationTail_complete hh hm hss)
    simpa [List.append_assoc] using this

/-- On a duration line both fields denote numbers, and `strconv.ParseInt` accepts a field
exactly when its number is below `32768`. -/
theorem extractDuration_parse {line hs ms : String} (h : extractDuration line = some (hs, ms)) :
    ∃ hh mm : Nat, digitsValue hs.data = some hh ∧ digitsValue ms.data = some mm
      ∧ parseInt16 hs = (if hh < 32768 then some (hh : Int) else none)
      ∧ parseInt16 ms = (if mm < 32768 then some (mm : Int) else none) := by
  obtain ⟨⟨h1, h2⟩, ⟨h3, h4⟩⟩ := extractDuration_digits h
  obtain ⟨hh, hhv⟩ := digitsValue_digits h1 h2
  obtain ⟨mm, mmv⟩ := digitsValue_digits h3 h4
  exact ⟨hh, mm, hhv, mmv, parseInt16_digits h1 h2 hhv, parseInt16_digits h3 h4 mmv⟩

theorem toInt16_exact {x : Int} (h0 : 0 ≤ x) (h1 : x ≤ 32767) : toInt16 x = x := by
  unfold toInt16
  omega

/-! ## Lemmas on segments -/

theorem body_title {line id : String} (rest : List String) (ht : extractTitle line = some id) :
    body (line :: rest) = [] := by
  simp [body, List.takeWhile_cons, isTitleLine, ht]

theorem body_other {line : String} (rest : List String) (ht : extractTitle line = none) :
    body (line :: rest) = line :: body rest := by
  simp [body, List.takeWhile_cons, isTitleLine, ht]

theorem segments_title {line id : String} (rest : List String)
    (ht : extractTitle line = some id) :
    segments (line :: rest) = (id, body rest) :: segments rest := by
  simp only [segments, ht]

theorem segments_other {line : String} (rest : List String) (ht : extractTitle line = none) :
    segments (line :: rest) = segments rest := by
  simp only [segments, ht]

theorem minutesFrom_nil (b : Int) : MinutesFrom b [] b := by
  simp [MinutesFrom, durationsOf]

theorem minutesFrom_skip {line : String} {b x : Int} {ls : List String}
    (hd : extractDuration line = none) (h : MinutesFrom b ls x) :
    MinutesFrom b (line :: ls) x := by
  simpa [MinutesFrom, durationsOf, List.filterMap_cons, hd] using h

theorem minutesFrom_duration {line hs ms : String} {hv mv b x : Int} {ls : List String}
    (hd : extractDuration line = some (hs, ms))
    (hh : parseInt16 hs = some hv) (hm : parseInt16 ms = some mv)
    (h : MinutesFrom (toInt16 (mv + hv * 60)) ls x) :
    MinutesFrom b (line :: ls) x := by
  obtain ⟨hn, mn, hhn, hmn, ph, pm⟩ := extractDuration_parse hd
  have hcons : durationsOf (line :: ls) = (hs, ms) :: durationsOf ls := by
    simp [durationsOf, List.filterMap_cons, hd]
  cases hl : durationsOf ls with
  | nil =>
    have hx : x = toInt16 (mv + hv * 60) := by
      simpa [MinutesFrom, hl] using h
    simp only [MinutesFrom, hcons, hl, List.getLast?_singleton]
    refine ⟨hn, mn, hhn, hmn, fun hle => ?_⟩
    rw [hh] at ph
    rw [hm] at pm
    split at ph
    · split at pm
      · have e1 : hv = (hn : Int) := Option.some.inj ph
        have e2 : mv = (mn : Int) := Option.some.inj pm
        rw [hx, e1, e2, toInt16_exact (by positivity) (by exact_mod_cast hle)]
        push_cast
        ring
      · cases pm
    · cases ph
  | cons d ds =>
    simp only [MinutesFrom, hcons, hl, List.getLast?_cons_cons] at h ⊢
    exact h

/-- The loop started after a title line: the last track is settled by the lines up to the
next title line, and every later title line contributes its own track. -/
theorem parseLines_segments (lines : List String) :
    ∀ (init : List Track) (t : Track) (ts : List Track),
      parseLines (init ++ [t]) lines = .ok ts →
      ∃ t1 rest1, ts = init ++ t1 :: rest1 ∧ t1.id = t.id
        ∧ MinutesFrom t.minutes (body lines) t1.minutes
        ∧ List.Forall₂ (fun (u : Track) (seg : String × List String) =>
            u.id = seg.1 ∧ MinutesFrom 0 seg.2 u.minutes) rest1 (segments lines) := by
  induction lines with
  | nil =>
    intro init t ts h
    simp only [parseLines, ParseResult.ok.injEq] at h
    exact ⟨t, [], h.symm, rfl, minutesFrom_nil _, List.Forall₂.nil⟩
  | cons line rest ih =>
    intro init t ts h
    cases ht : extractTitle line with
    | some id =>
      rw [parseLines_title _ rest ht] at h
      obtain ⟨t1, rest1, e, hid, hmin, hall⟩ := ih (init ++ [t]) ⟨id, 0⟩ ts h
      refine ⟨t, t1 :: rest1, by simpa using e, rfl, ?_, ?_⟩
      · rw [body_title rest ht]; exact minutesFrom_nil _
      · rw [segments_title rest ht]
        exact List.Forall₂.cons ⟨hid, hmin⟩ hall
    | none =>
      rw [body_other rest ht, segments_other rest ht]
      cases hd : extractDuration line with
      | none =>
        rw [parseLines_other _ rest ht hd] at h
        obtain ⟨t1, rest1, e, hid, hmin, hall⟩ := ih init t ts h
        exact ⟨t1, rest1, e, hid, minutesFrom_skip hd hmin, hall⟩
      | some p =>
        obtain ⟨hs, ms⟩ := p
        cases hh : parseInt16 hs with
        | none => rw [parseLines_badHours _ rest ht hd hh] at h; cases h
        | some hv =>
          cases hm : parseInt16 ms with
          | none => rw [parseLines_badMinutes _ rest ht hd hh hm] at h; cases h
          | some mv =>
            rw [parseLines_duration init t rest ht hd hh hm] at h
            obtain ⟨t1, rest1, e, hid, hmin, hall⟩ := ih init _ ts h
            exact ⟨t1, rest1, e, hid, minutesFrom_duration hd hh hm hmin, hall⟩

/-- The loop started on the empty sequence: one settled track per title line. -/
theorem parseLines_nil_segments (lines : List String) :
    ∀ ts : List Track, parseLines [] lines = .ok ts →
      List.Forall₂ (fun (u : Track) (seg : String × List String) =>
        u.id = seg.1 ∧ MinutesFrom 0 seg.2 u.minutes) ts (segments lines) := by
  induction lines with
  | nil =>
    intro ts h
    simp only [parseLines, ParseResult.ok.injEq] at h
    subst h
    exact List.Forall₂.nil
  | cons line rest ih =>
    intro ts h
    cases ht : extractTitle line with
    | some id =>
      rw [parseLines_title _ rest ht] at h
      obtain ⟨t1, rest1, e, hid, hmin, hall⟩ := parseLines_segments rest [] ⟨id, 0⟩ ts h
      rw [segments_title rest ht, e]
      exact List.Forall₂.cons ⟨hid, hmin⟩ hall
    | none =>
      rw [segments_other rest ht]
      cases hd : extractDuration line with
      | none =>
        rw [parseLines_other _ rest ht hd] at h
        exact ih ts h
      | some p =>
        obtain ⟨hs, ms⟩ := p
        cases hh : parseInt16 hs with
        | none => rw [parseLines_badHours _ rest ht hd hh] at h; cases h
        | some hv =>
          cases hm : parseInt16 ms with
          | none => rw [parseLines_badMinutes _ rest ht hd hh hm] at h; cases h
          | some mv => rw [parseLines_orphan rest ht hd hh hm] at h; cases h

/-- C2, as the code has it: whenever `parseTrackInfo` returns a track list, the tracks
correspond one to one, in order, to the title lines; a track has zero minutes when no duration
line stands between its title line and the next one, and otherwise `MM + HH*60` of the last
such duration line, whenever that number is at most 32767. -/
theorem parseTrackInfo_minutes (output : String) (tracks : List Track)
    (h : parseTrackInfo output = .ok tracks) :
    List.Forall₂ (fun (t : Track) (seg : String × List String) =>
      t.id = seg.1 ∧ MinutesFrom 0 seg.2 t.minutes) tracks (segments (splitLines output)) :=
  parseLines_nil_segments (splitLines output) tracks h

/-- C2 at the report of the end-to-end fixture. -/
theorem parseTrackInfo_minutes_witness :
    List.Forall₂ (fun (t : Track) (seg : String × List String) =>
      t.id = seg.1 ∧ MinutesFrom 0 seg.2 t.minutes) [Track.mk "2" 1, Track.mk "4" 26]
      (segments
        (splitLines "+ title 2:\n  + duration: 00:01:00\n+ title 4:\n  + duration: 00:26:00")) :=
  parseTrackInfo_minutes "+ title 2:\n  + duration: 00:01:00\n+ title 4:\n  + duration: 00:26:00"
    [⟨"2", 1⟩, ⟨"4", 26⟩] (by decide)

/-- C2 as stated fails: with two duration lines after one title line the track gets the
minutes of the last of them (2), not of the nearest one (1). -/
theorem last_duration_wins :
    parseTrackInfo "+ title 1:\n  + duration: 00:01:00\n  + duration: 00:02:00"
        = .ok [⟨"1", 2⟩]
      ∧ segments (splitLines "+ title 1:\n  + duration: 00:01:00\n  + duration: 00:02:00")
        = [("1", ["  + duration: 00:01:00", "  + duration: 00:02:00"])]
      ∧ nearestMinutes ["  + duration: 00:01:00", "  + duration: 00:02:00"] = 1
      ∧ (Track.mk "1" 2).minutes
        ≠ nearestMinutes ["  + duration: 00:01:00", "  + duration: 00:02:00"] := by
  decide

/-- C3 fails on the code: the hour field 547 and the minute field 00 both parse, the line
follows a title line, and the stored minutes are `-32716`, not `0 + 547*60 = 32820`. -/
theorem minutes_wrap_int16 :
    parseInt16 "547" = some 547 ∧ parseInt16 "00" = some 0
      ∧ extractDuration "  + duration: 547:00:00" = some ("547", "00")
      ∧ parseTrackInfo "+ title 1:\n  + duration: 547:00:00" = .ok [⟨"1", -32716⟩]
      ∧ (0 : Int) + 547 * 60 = 32820 := by
  decide

/-! ## Inputs without a title line -/

theorem parseLines_plain (acc : List Track) (lines : List String)
    (ht : ∀ l ∈ lines, extractTitle l = none) (hd : ∀ l ∈ lines, extractDuration l = none) :
    parseLines acc lines = .ok acc := by
  induction lines with
  | nil => rfl
  | cons l ls ih =>
    rw [parseLines_other acc ls (ht l (List.mem_cons_self _ _)) (hd l (List.mem_cons_self _ _))]
    exact ih (fun x hx => ht x (List.mem_cons_of_mem _ hx))
      (fun x hx => hd x (List.mem_cons_of_mem _ hx))

/-- C8, as the code has it: on an input with no title line and no duration line
`parseTrackInfo` returns the empty sequence and no error. -/
theorem parseTrackInfo_no_title (output : String)
    (ht : ∀ l ∈ splitLines output, extractTitle l = none)
    (hd : ∀ l ∈ splitLines output, extractDuration l = none) :
    parseTrackInfo output = .ok [] :=
  parseLines_plain [] (splitLines output) ht hd

/-- C8 on a report of two lines that match neither pattern. -/
theorem parseTrackInfo_no_title_witness :
    parseTrackInfo "scanning...\nno tracks found" = .ok [] :=
  parseTrackInfo_no_title "scanning...\nno tracks found" (by decide) (by decide)

/-- C8 as stated fails: an input without a title line but with a duration line does not give
the empty sequence, the parser stops on the index `-1`. -/
theorem no_title_orphan_duration :
    (∀ l ∈ splitLines "  + duration: 00:01:00", extractTitle l = none)
      ∧ parseTrackInfo "  + duration: 00:01:00" = .indexOutOfRange
      ∧ parseTrackInfo "  + duration: 00:01:00" ≠ .ok [] := by
  decide

/-! ## Parse errors -/

theorem badDuration_title {line id : String} (ht : extractTitle line = some id) :
    badDuration line = none := by
  simp only [badDuration, ht]

theorem badDuration_other {line : String} (ht : extractTitle line = none)
    (hd : extractDuration line = none) : badDuration line = none := by
  simp only [badDuration, ht, hd]

theorem badDuration_badHours {line hs ms : String} (ht : extractTitle line = none)
    (hd : extractDuration line = some (hs, ms)) (hh : parseInt16 hs = none) :
    badDuration line = some ("Failed to parse minutes from line " ++ line ++ ", hours " ++ hs) := by
  simp only [badDuration, ht, hd, hh]

theorem badDuration_badMinutes {line hs ms : String} {h : Int} (ht : extractTitle line = none)
    (hd : extractDuration line = some (hs, ms)) (hh : parseInt16 hs = some h)
    (hm : parseInt16 ms = none) :
    badDuration line
      = some ("Failed to parse minutes from line " ++ line ++ ", minute " ++ ms) := by
  simp only [badDuration, ht, hd, hh, hm]

theorem badDuration_good {line hs ms : String} {h m : Int} (ht : extractTitle line = none)
    (hd : extractDuration line = some (hs, ms)) (hh : parseInt16 hs = some h)
    (hm : parseInt16 ms = some m) : badDuration line = none := by
  simp only [badDuration, ht, hd, hh, hm]

theorem orphanFree_nil : OrphanFree [] := by
  intro l hl
  simp [body] at hl

theorem orphanFree_title {line id : String} (rest : List String)
    (ht : extractTitle line = some id) : OrphanFree (line :: rest) := by
  intro l hl
  rw [body_title rest ht] at hl
  cases hl

theorem orphanFree_other {line : String} (rest : List String)
    (ht : extractTitle line = none) (hd : extractDuration line = none) :
    OrphanFree (line :: rest) ↔ OrphanFree rest := by
  unfold OrphanFree
  rw [body_other rest ht]
  constructor
  · intro h l hl
    exact h l (List.mem_cons_of_mem _ hl)
  · intro h l hl
    rcases List.mem_cons.mp hl with rfl | hl
    · exact hd
    · exact h l hl

theorem not_orphanFree_duration {line : String} {p : String × String} (rest : List String)
    (ht : extractTitle line = none) (hd : extractDuration line = some p) :
    ¬ OrphanFree (line :: rest) := by
  intro h
  have := h line (by rw [body_other rest ht]; exact List.mem_cons_self _ _)
  rw [hd] at this
  cases this

/-- When the loop returns an error: it got past a stretch `pre` of the lines and stands on a
duration line with a field that does not parse. -/
theorem parseLines_error_iff (lines : List String) :
    ∀ (acc : List Track) (msg : String),
      parseLines acc lines = .error msg ↔
        ∃ pre line post, lines = pre ++ line :: post ∧ (acc = [] → OrphanFree pre)
          ∧ (∀ l ∈ pre, badDuration l = none) ∧ badDuration line = some msg := by
  induction lines with
  | nil =>
    intro acc msg
    constructor
    · intro h; simp [parseLines] at h
    · rintro ⟨pre, line, post, e, -⟩
      simp at e
  | cons l rest ih =>
    intro acc msg
    -- the shape of a decomposition of `l :: rest`
    have shape : ∀ {pre : List String} {line : String} {post : List String},
        l :: rest = pre ++ line :: post →
        (pre = [] ∧ line = l ∧ post = rest) ∨ ∃ pre1, pre = l :: pre1 ∧ rest = pre1 ++ line :: post := by
      intro pre line post e
      cases pre with
      | nil =>
        simp only [List.nil_append, List.cons.injEq] at e
        exact Or.inl ⟨rfl, e.1.symm, e.2.symm⟩
      | cons a pre1 =>
        simp only [List.cons_append, List.cons.injEq] at e
        exact Or.inr ⟨pre1, by rw [e.1], e.2⟩
    -- a line that is passed over, leaving a non-empty or unchanged sequence
    have pass : ∀ (acc1 : List Track), parseLines acc (l :: rest) = parseLines acc1 rest →
        badDuration l = none →
        (∀ pre1, (acc1 = [] → OrphanFree pre1) → (acc = [] → OrphanFree (l :: pre1))) →
        (∀ pre1, (acc = [] → OrphanFree (l :: pre1)) → (acc1 = [] → OrphanFree pre1)) →
        (parseLines acc (l :: rest) = .error msg ↔
          ∃ pre line post, l :: rest = pre ++ line :: post ∧ (acc = [] → OrphanFree pre)
            ∧ (∀ x ∈ pre, badDuration x = none) ∧ badDuration line = some msg) := by
      intro acc1 hstep hbad hfw hbw
      rw [hstep, ih acc1 msg]
      constructor
      · rintro ⟨pre1, line, post, e, ho, hb, hl⟩
        refine ⟨l :: pre1, line, post, by rw [e]; rfl, hfw pre1 ho, ?_, hl⟩
        intro x hx
        rcases List.mem_cons.mp hx with rfl | hx
        · exact hbad
        · exact hb x hx
      · rintro ⟨pre, line, post, e, ho, hb, hl⟩
        rcases shape e with ⟨rfl, rfl, rfl⟩ | ⟨pre1, rfl, e1⟩
        · rw [hbad] at hl; cases hl
        · exact ⟨pre1, line, post, e1, hbw pre1 ho,
            fun x hx => hb x (List.mem_cons_of_mem _ hx), hl⟩
    -- a line on which the loop returns the error `msg0`
    have stop : ∀ (msg0 : String), parseLines acc (l :: rest) = .error msg0 →
        badDuration l = some msg0 →
        (parseLines acc (l :: rest) = .error msg ↔
          ∃ pre line post, l :: rest = pre ++ line :: post ∧ (acc = [] → OrphanFree pre)
            ∧ (∀ x ∈ pre, badDuration x = none) ∧ badDuration line = some msg) := by
      intro msg0 hstep hbad
      rw [hstep]
      constructor
      · intro h
        have hmsg : msg0 = msg := by injection h
        subst hmsg
        exact ⟨[], l, rest, rfl, fun _ => orphanFree_nil, fun x hx => absurd hx (List.not_mem_nil x),
          hbad⟩
      · rintro ⟨pre, line, post, e, ho, hb, hl⟩
        rcases shape e with ⟨rfl, rfl, rfl⟩ | ⟨pre1, rfl, e1⟩
        · rw [hbad] at hl
          rw [Option.some.inj hl]
        · have := hb l (List.mem_cons_self _ _)
          rw [hbad] at this
          cases this
    cases ht : extractTitle l with
    | some id =>
      refine pass _ (parseLines_title acc rest ht) (badDuration_title ht) ?_ ?_
      · intro pre1 _ _
        exact orphanFree_title pre1 ht
      · intro pre1 _ hnil
        simp at hnil
    | none =>
      cases hd : extractDuration l with
      | none =>
        refine pass _ (parseLines_other acc rest ht hd) (badDuration_other ht hd) ?_ ?_
        · intro pre1 h hnil
          exact (orphanFree_other pre1 ht hd).mpr (h hnil)
        · intro pre1 h hnil
          exact (orphanFree_other pre1 ht hd).mp (h hnil)
      | some p =>
        obtain ⟨hs, ms⟩ := p
        cases hh : parseInt16 hs with
        | none =>
          exact stop _ (parseLines_badHours acc rest ht hd hh) (badDuration_badHours ht hd hh)
        | some hv =>
          cases hm : parseInt16 ms with
          | none =>
            exact stop _ (parseLines_badMinutes acc rest ht hd hh hm)
              (badDuration_badMinutes ht hd hh hm)
          | some mv =>
            rcases nil_or_snoc acc with rfl | ⟨init, t, rfl⟩
            · rw [parseLines_orphan rest ht hd hh hm]
              constructor
              · intro h; cases h
              · rintro ⟨pre, line, post, e, ho, hb, hl⟩
                rcases shape e with ⟨rfl, rfl, rfl⟩ | ⟨pre1, rfl, e1⟩
                · rw [badDuration_good ht hd hh hm] at hl; cases hl
                · exact absurd (ho rfl) (not_orphanFree_duration pre1 ht hd)
            · refine pass _ (parseLines_duration init t rest ht hd hh hm)
                (badDuration_good ht hd hh hm) ?_ ?_
              · intro pre1 _ hnil
                simp at hnil
              · intro pre1 _ hnil
                simp at hnil

theorem badDuration_some_iff (line msg : String) :
    badDuration line = some msg ↔
      ∃ hs ms, extractTitle line = none ∧ extractDuration line = some (hs, ms)
        ∧ ((parseInt16 hs = none
              ∧ msg = "Failed to parse minutes from line " ++ line ++ ", hours " ++ hs)
          ∨ ((parseInt16 hs).isSome = true ∧ parseInt16 ms = none
              ∧ msg = "Failed to parse minutes from line " ++ line ++ ", minute " ++ ms)) := by
  cases ht : extractTitle line with
  | some id => simp [badDuration_title ht]
  | none =>
    cases hd : extractDuration line with
    | none => simp [badDuration_other ht hd]
    | some p =>
      obtain ⟨hs, ms⟩ := p
      cases hh : parseInt16 hs with
      | none =>
        rw [badDuration_badHours ht hd hh]
        constructor
        · intro h
          exact ⟨hs, ms, rfl, rfl, Or.inl ⟨hh, (Option.some.inj h).symm⟩⟩
        · rintro ⟨hs1, ms1, -, e, h⟩
          obtain ⟨rfl, rfl⟩ := Prod.mk.inj (Option.some.inj e)
          rcases h with ⟨-, rfl⟩ | ⟨h1, -⟩
          · rfl
          · rw [hh] at h1; cases h1
      | some hv =>
        cases hm : parseInt16 ms with
        | none =>
          rw [badDuration_badMinutes ht hd hh hm]
          constructor
          · intro h
            exact ⟨hs, ms, rfl, rfl, Or.inr ⟨by rw [hh]; rfl, hm, (Option.some.inj h).symm⟩⟩
          · rintro ⟨hs1, ms1, -, e, h⟩
            obtain ⟨rfl, rfl⟩ := Prod.mk.inj (Option.some.inj e)
            rcases h with ⟨h1, -⟩ | ⟨-, -, rfl⟩
            · rw [hh] at h1; cases h1
            · rfl
        | some mv =>
          rw [badDuration_good ht hd hh hm]
          constructor
          · intro h; cases h
          · rintro ⟨hs1, ms1, -, e, h⟩
            obtain ⟨rfl, rfl⟩ := Prod.mk.inj (Option.some.inj e)
            rcases h with ⟨h1, -⟩ | ⟨-, h1, -⟩
            · rw [hh] at h1; cases h1
            · rw [hm] at h1; cases h1

/-- C9: `parseTrackInfo` returns an error with text `msg` exactly when the scan gets to a
duration line (not a title line) whose hour or minute field `strconv.ParseInt(_, 10, 16)`
rejects, having passed only lines that neither fail to parse nor are duration lines ahead of
the first title line; `msg` names the line and the hour field when the hour fails, and the
line and the minute field otherwise.  No track list comes with the error. -/
theorem parseTrackInfo_error_iff (output msg : String) :
    parseTrackInfo output = .error msg ↔
      ∃ pre line post hs ms, splitLines output = pre ++ line :: post
        ∧ OrphanFree pre ∧ (∀ l ∈ pre, badDuration l = none)
        ∧ extractTitle line = none ∧ extractDuration line = some (hs, ms)
        ∧ ((parseInt16 hs = none
              ∧ msg = "Failed to parse minutes from line " ++ line ++ ", hours " ++ hs)
          ∨ ((parseInt16 hs).isSome = true ∧ parseInt16 ms = none
              ∧ msg = "Failed to parse minutes from line " ++ line ++ ", minute " ++ ms)) := by
  unfold parseTrackInfo
  rw [parseLines_error_iff (splitLines output) [] msg]
  constructor
  · rintro ⟨pre, line, post, e, ho, hb, hl⟩
    obtain ⟨hs, ms, h1, h2, h3⟩ := (badDuration_some_iff line msg).mp hl
    exact ⟨pre, line, post, hs, ms, e, ho rfl, hb, h1, h2, h3⟩
  · rintro ⟨pre, line, post, hs, ms, e, ho, hb, h1, h2, h3⟩
    exact ⟨pre, line, post, e, fun _ => ho, hb,
      (badDuration_some_iff line msg).mpr ⟨hs, ms, h1, h2, h3⟩⟩

/-! ## Duration lines ahead of the first title line -/

theorem parseLines_first_orphan (lines : List String) (h : ¬ OrphanFree lines) :
    ∃ pre line post, lines = pre ++ line :: post
      ∧ (∀ l ∈ pre, extractTitle l = none ∧ extractDuration l = none)
      ∧ extractTitle line = none ∧ (extractDuration line).isSome = true
      ∧ (badDuration line = none → parseLines [] lines = .indexOutOfRange)
      ∧ (∀ msg, badDuration line = some msg → parseLines [] lines = .error msg) := by
  induction lines with
  | nil => exact absurd orphanFree_nil h
  | cons l rest ih =>
    cases ht : extractTitle l with
    | some id => exact absurd (orphanFree_title rest ht) h
    | none =>
      cases hd : extractDuration l with
      | none =>
        obtain ⟨pre, line, post, e, hpre, hlt, hsome, h1, h2⟩ :=
          ih (fun hf => h ((orphanFree_other rest ht hd).mpr hf))
        rw [parseLines_other [] rest ht hd]
        refine ⟨l :: pre, line, post, by rw [e]; rfl, ?_, hlt, hsome, h1, h2⟩
        intro x hx
        rcases List.mem_cons.mp hx with rfl | hx
        · exact ⟨ht, hd⟩
        · exact hpre x hx
      | some p =>
        obtain ⟨hs, ms⟩ := p
        refine ⟨[], l, rest, rfl, fun x hx => absurd hx (List.not_mem_nil x), ht,
          by rw [hd]; rfl, ?_, ?_⟩
        · intro hb
          cases hh : parseInt16 hs with
          | none => rw [badDuration_badHours ht hd hh] at hb; cases hb
          | some hv =>
            cases hm : parseInt16 ms with
            | none => rw [badDuration_badMinutes ht hd hh hm] at hb; cases hb
            | some mv => exact parseLines_orphan rest ht hd hh hm
        · intro msg hb
          cases hh : parseInt16 hs with
          | none =>
            rw [badDuration_badHours ht hd hh] at hb
            rw [parseLines_badHours [] rest ht hd hh, Option.some.inj hb]
          | some hv =>
            cases hm : parseInt16 ms with
            | none =>
              rw [badDuration_badMinutes ht hd hh hm] at hb
              rw [parseLines_badMinutes [] rest ht hd hh hm, Option.some.inj hb]
            | some mv => rw [badDuration_good ht hd hh hm] at hb; cases hb

theorem parseLines_in_range (lines : List String) :
    ∀ acc : List Track, (acc = [] → OrphanFree lines) →
      parseLines acc lines ≠ .indexOutOfRange := by
  induction lines with
  | nil =>
    intro acc _ h
    simp [parseLines] at h
  | cons l rest ih =>
    intro acc ho
    cases ht : extractTitle l with
    | some id =>
      rw [parseLines_title acc rest ht]
      exact ih _ (fun hnil => by simp at hnil)
    | none =>
      cases hd : extractDuration l with
      | none =>
        rw [parseLines_other acc rest ht hd]
        exact ih _ (fun hnil => (orphanFree_other rest ht hd).mp (ho hnil))
      | some p =>
        obtain ⟨hs, ms⟩ := p
        cases hh : parseInt16 hs with
        | none => rw [parseLines_badHours acc rest ht hd hh]; intro h; cases h
        | some hv =>
          cases hm : parseInt16 ms with
          | none => rw [parseLines_badMinutes acc rest ht hd hh hm]; intro h; cases h
          | some mv =>
            rcases nil_or_snoc acc with rfl | ⟨init, t, rfl⟩
            · exact absurd (ho rfl) (not_orphanFree_duration rest ht hd)
            · rw [parseLines_duration init t rest ht hd hh hm]
              exact ih _ (fun hnil => by simp at hnil)

/-- C10, as the code has it: when a duration line stands ahead of the first title line,
`parseTrackInfo` returns no track list; on the first such line (only lines that match neither
pattern come before it) it stops with the index out of range when both fields of the line
parse, and returns the parse error of that line when one does not.  Conversely, when no
duration line stands ahead of the first title line, the index of the last element is always
in range. -/
theorem parseTrackInfo_orphan (output : String) :
    (¬ OrphanFree (splitLines output) →
      (∀ tracks, parseTrackInfo output ≠ .ok tracks)
        ∧ ∃ pre line post, splitLines output = pre ++ line :: post
          ∧ (∀ l ∈ pre, extractTitle l = none ∧ extractDuration l = none)
          ∧ extractTitle line = none ∧ (extractDuration line).isSome = true
          ∧ (badDuration line = none → parseTrackInfo output = .indexOutOfRange)
          ∧ (∀ msg, badDuration line = some msg → parseTrackInfo output = .error msg))
      ∧ (OrphanFree (splitLines output) → parseTrackInfo output ≠ .indexOutOfRange) := by
  refine ⟨fun h => ?_, fun h => parseLines_in_range _ [] (fun _ => h)⟩
  obtain ⟨pre, line, post, e, hpre, hlt, hsome, h1, h2⟩ :=
    parseLines_first_orphan (splitLines output) h
  refine ⟨?_, pre, line, post, e, hpre, hlt, hsome, h1, h2⟩
  intro tracks hok
  unfold parseTrackInfo at hok
  cases hb : badDuration line with
  | none => rw [h1 hb] at hok; cases hok
  | some msg => rw [h2 msg hb] at hok; cases hok

/-- C10 as stated fails: a duration line ahead of any title line whose hour field is out of
range makes `parseTrackInfo` return the parse error, not stop on the index. -/
theorem orphan_duration_parse_error :
    extractTitle "  + duration: 99999:00:00" = none
      ∧ extractDuration "  + duration: 99999:00:00" = some ("99999", "00")
      ∧ parseTrackInfo "  + duration: 99999:00:00"
        = .error "Failed to parse minutes from line   + duration: 99999:00:00, hours 99999"
      ∧ parseTrackInfo "  + duration: 99999:00:00" ≠ .indexOutOfRange := by
  decide

/-- C10 on a report whose duration line comes first, and on one whose title line comes
first. -/
theorem parseTrackInfo_orphan_witness :
    (∀ tracks, parseTrackInfo "  + duration: 00:01:00\n+ title 1:" ≠ .ok tracks)
      ∧ parseTrackInfo "+ title 1:\n  + duration: 00:01:00" ≠ .indexOutOfRange :=
  ⟨((parseTrackInfo_orphan "  + duration: 00:01:00\n+ title 1:").1 (by decide)).1,
    (parseTrackInfo_orphan "+ title 1:\n  + duration: 00:01:00").2 (by decide)⟩

/-! ## Lemmas on the orchestrator -/

theorem drain_eq_foldl (ch : List String) :
    ∀ buf : String, drain ch buf = (ch.map (· ++ "\n")).foldl (· ++ ·) buf := by
  induction ch with
  | nil => intro buf; rfl
  | cons e es ih =>
    intro buf
    simp only [drain, List.map_cons, List.foldl_cons, ih, String.append_assoc]

theorem drain_eq_join (ch : List String) : drain ch "" = String.join (ch.map (· ++ "\n")) := by
  rw [drain_eq_foldl]
  rfl

theorem drain_data (ch : List String) :
    ∀ buf : String,
      (drain ch buf).data = buf.data ++ (ch.map fun e => e.data ++ ['\n']).flatten := by
  induction ch with
  | nil => intro buf; simp [drain]
  | cons e es ih =>
    intro buf
    simp only [drain, ih, List.map_cons, List.flatten_cons, String.data_append]
    simp [List.append_assoc]

theorem drain_length_pos (ch : List String) : 0 < (drain ch "").length ↔ ch ≠ [] := by
  cases ch with
  | nil => simp [drain]
  | cons e es =>
    have h : (drain (e :: es) "").length = (drain (e :: es) "").data.length := rfl
    rw [h, drain_data]
    simp [List.length_append]

theorem channel_perm (env : Env) (r : Run) (dvdPath handbrakePath handbrakePreset : String)
    (tracks : List Track) (sched : List Nat) (hs : sched.Perm (List.range tracks.length)) :
    (channel env r dvdPath handbrakePath handbrakePreset tracks sched).Perm
      (failures env r dvdPath handbrakePath handbrakePreset tracks) :=
  hs.filterMap _

theorem extractTracks_eq (env : Env) (r : Run) (dvdPath handbrakePath handbrakePreset : String)
    (tracks : List Track) (sched : List Nat) :
    extractTracks env r dvdPath handbrakePath handbrakePreset tracks sched
      = if channel env r dvdPath handbrakePath handbrakePreset tracks sched = [] then none
        else some (drain (channel env r dvdPath handbrakePath handbrakePreset tracks sched) "") := by
  unfold extractTracks
  by_cases h : channel env r dvdPath handbrakePath handbrakePreset tracks sched = []
  · simp [h, drain]
  · have := (drain_length_pos _).mpr h
    simp [h, this]

theorem sent_trackProc_none (env : Env) (r : Run) (dvdPath handbrakePath handbrakePreset : String)
    (i : Nat) (t : Track) :
    (trackProc env r dvdPath handbrakePath handbrakePreset i t).sent = none ↔
      (r.statBefore i (outputFile env dvdPath handbrakePreset t) = true
        ∨ (r.run i (commandLine env dvdPath handbrakePath handbrakePreset t) = none
          ∧ r.statAfter i (outputFile env dvdPath handbrakePreset t) = true)) := by
  unfold trackProc
  cases hb : r.statBefore i (outputFile env dvdPath handbrakePreset t) with
  | true => simp [Outcome.sent]
  | false =>
    cases hr : r.run i (commandLine env dvdPath handbrakePath handbrakePreset t) with
    | some e => simp [Outcome.sent]
    | none =>
      cases ha : r.statAfter i (outputFile env dvdPath handbrakePreset t) <;>
        simp [Outcome.sent]

theorem failures_eq_nil_iff (env : Env) (r : Run)
    (dvdPath handbrakePath handbrakePreset : String) (tracks : List Track) :
    failures env r dvdPath handbrakePath handbrakePreset tracks = [] ↔
      ∀ i t, tracks[i]? = some t →
        (r.statBefore i (outputFile env dvdPath handbrakePreset t) = true
          ∨ (r.run i (commandLine env dvdPath handbrakePath handbrakePreset t) = none
            ∧ r.statAfter i (outputFile env dvdPath handbrakePreset t) = true)) := by
  unfold failures
  rw [List.filterMap_eq_nil_iff]
  constructor
  · intro h i t hi
    have hlt : i < tracks.length := by
      by_contra hge
      rw [List.getElem?_eq_none (Nat.le_of_not_lt hge)] at hi
      cases hi
    have := h i (List.mem_range.mpr hlt)
    simp only [outcomeAt, hi, Option.map_some', Option.some_bind] at this
    exact (sent_trackProc_none _ _ _ _ _ _ _).mp this
  · intro h i _
    cases hi : tracks[i]? with
    | none => simp only [outcomeAt, hi, Option.map_none', Option.none_bind]
    | some t =>
      simp only [outcomeAt, hi, Option.map_some', Option.some_bind]
      exact (sent_trackProc_none _ _ _ _ _ _ _).mpr (h i t hi)

/-! ## Claims on the orchestrator -/

/-- C4: `extractTracks` returns nil exactly when no goroutine recorded a failure, that is when
every track either had its output file in place already, or had its engine run report
success and its output file in place afterwards; the texts of the failures play no role. -/
theorem extractTracks_nil_iff (env : Env) (r : Run)
    (dvdPath handbrakePath handbrakePreset : String) (tracks : List Track) (sched : List Nat)
    (hs : sched.Perm (List.range tracks.length)) :
    (extractTracks env r dvdPath handbrakePath handbrakePreset tracks sched = none ↔
        failures env r dvdPath handbrakePath handbrakePreset tracks = [])
      ∧ (failures env r dvdPath handbrakePath handbrakePreset tracks = [] ↔
        ∀ i t, tracks[i]? = some t →
          (r.statBefore i (outputFile env dvdPath handbrakePreset t) = true
            ∨ (r.run i (commandLine env dvdPath handbrakePath handbrakePreset t) = none
              ∧ r.statAfter i (outputFile env dvdPath handbrakePreset t) = true))) := by
  refine ⟨?_, failures_eq_nil_iff env r dvdPath handbrakePath handbrakePreset tracks⟩
  have hp := channel_perm env r dvdPath handbrakePath handbrakePreset tracks sched hs
  rw [extractTracks_eq]
  constructor
  · intro h
    by_cases hc : channel env r dvdPath handbrakePath handbrakePreset tracks sched = []
    · rw [hc] at hp
      exact hp.nil_eq.symm
    · rw [if_neg hc] at h
      cases h
  · intro h
    rw [h] at hp
    rw [if_pos hp.eq_nil]

/-- C4 where the only failure has the empty text: the result is still an error. -/
theorem extractTracks_nil_iff_witness :
    (extractTracks demoEnv emptyErrorRun
          "/mnt/dvd" "/usr/bin/HandBrakeCLI" "HQ" [⟨"1", 10⟩] [0] = none ↔
        failures demoEnv emptyErrorRun
          "/mnt/dvd" "/usr/bin/HandBrakeCLI" "HQ" [⟨"1", 10⟩] = [])
      ∧ extractTracks demoEnv emptyErrorRun
          "/mnt/dvd" "/usr/bin/HandBrakeCLI" "HQ" [⟨"1", 10⟩] [0] = some "\n" :=
  ⟨(extractTracks_nil_iff demoEnv emptyErrorRun
      "/mnt/dvd" "/usr/bin/HandBrakeCLI" "HQ" [⟨"1", 10⟩] [0] (by decide)).1, by decide⟩

/-- C5, as the code has it: when `extractTracks` returns an error, its text is the texts of
the recorded failures, each followed by a newline, one after the other in the order in which
they reached the channel, which holds one entry for each track that failed and none for the
others; and whether a track's engine is run depends on its own output file only. -/
theorem extractTracks_error_text (env : Env) (r : Run)
    (dvdPath handbrakePath handbrakePreset : String) (tracks : List Track) (sched : List Nat)
    (hs : sched.Perm (List.range tracks.length)) (msg : String)
    (h : extractTracks env r dvdPath handbrakePath handbrakePreset tracks sched = some msg) :
    (∃ ch : List String,
        ch.Perm (failures env r dvdPath handbrakePath handbrakePreset tracks) ∧ ch ≠ []
          ∧ msg = String.join (ch.map (· ++ "\n")))
      ∧ ∀ i t, tracks[i]? = some t →
          (trackProc env r dvdPath handbrakePath handbrakePreset i t).invoked
            = !r.statBefore i (outputFile env dvdPath handbrakePreset t) := by
  constructor
  · rw [extractTracks_eq] at h
    by_cases hc : channel env r dvdPath handbrakePath handbrakePreset tracks sched = []
    · rw [if_pos hc] at h
      cases h
    · rw [if_neg hc] at h
      refine ⟨_, channel_perm env r dvdPath handbrakePath handbrakePreset tracks sched hs, hc, ?_⟩
      rw [← drain_eq_join]
      exact (Option.some.inj h).symm
  · intro i t _
    unfold trackProc
    cases r.statBefore i (outputFile env dvdPath handbrakePreset t) with
    | true => rfl
    | false =>
      cases r.run i (commandLine env dvdPath handbrakePath handbrakePreset t) with
      | some e => rfl
      | none =>
        cases r.statAfter i (outputFile env dvdPath handbrakePreset t) <;> rfl

/-- C5 on three tracks of which the second fails: the error is that failure followed by a
newline, and all three engines were run. -/
theorem extractTracks_error_text_witness :
    ((∃ ch : List String,
        ch.Perm (failures demoEnv secondFailsRun "/mnt/dvd" "/usr/bin/HandBrakeCLI" "HQ"
          threeTracks) ∧ ch ≠ [] ∧ "exit status 1\n" = String.join (ch.map (· ++ "\n")))
      ∧ ∀ i t, threeTracks[i]? = some t →
          (trackProc demoEnv secondFailsRun "/mnt/dvd" "/usr/bin/HandBrakeCLI" "HQ" i t).invoked
            = !secondFailsRun.statBefore i (outputFile demoEnv "/mnt/dvd" "HQ" t))
      ∧ failures demoEnv secondFailsRun "/mnt/dvd" "/usr/bin/HandBrakeCLI" "HQ" threeTracks
        = ["exit status 1"]
      ∧ invocations demoEnv secondFailsRun "/mnt/dvd" "/usr/bin/HandBrakeCLI" "HQ" threeTracks
        = 3 :=
  ⟨extractTracks_error_text demoEnv secondFailsRun "/mnt/dvd" "/usr/bin/HandBrakeCLI" "HQ"
      threeTracks [2, 0, 1] (by decide) "exit status 1\n" (by decide), by decide, by decide⟩

/-- C5 as stated fails: with three tracks of which only the second fails, the error text is
not that failure's text (the one recorded text joined by newlines) but that text followed by
a newline. -/
theorem aggregate_trailing_newline :
    failures demoEnv secondFailsRun "/mnt/dvd" "/usr/bin/HandBrakeCLI" "HQ" threeTracks
        = ["exit status 1"]
      ∧ extractTracks demoEnv secondFailsRun "/mnt/dvd" "/usr/bin/HandBrakeCLI" "HQ"
          threeTracks [0, 1, 2] = some "exit status 1\n"
      ∧ extractTracks demoEnv secondFailsRun "/mnt/dvd" "/usr/bin/HandBrakeCLI" "HQ"
          threeTracks [0, 1, 2] ≠ some ("\n".intercalate ["exit status 1"]) := by
  decide

theorem invocations_eq_zero (env : Env) (r : Run)
    (dvdPath handbrakePath handbrakePreset : String) (tracks : List Track)
    (h : ∀ i t, tracks[i]? = some t →
      r.statBefore i (outputFile env dvdPath handbrakePreset t) = true) :
    invocations env r dvdPath handbrakePath handbrakePreset tracks = 0 := by
  unfold invocations
  rw [List.length_eq_zero, List.filter_eq_nil_iff]
  intro i _
  cases hi : tracks[i]? with
  | none => simp [outcomeAt, hi]
  | some t => simp [outcomeAt, hi, trackProc, h i t hi, Outcome.invoked]

theorem channel_eq_nil_of_skipped (env : Env) (r : Run)
    (dvdPath handbrakePath handbrakePreset : String) (tracks : List Track) (sched : List Nat)
    (h : ∀ i t, tracks[i]? = some t →
      r.statBefore i (outputFile env dvdPath handbrakePreset t) = true) :
    channel env r dvdPath handbrakePath handbrakePreset tracks sched = [] := by
  unfold channel
  rw [List.filterMap_eq_nil_iff]
  intro i _
  cases hi : tracks[i]? with
  | none => simp [outcomeAt, hi]
  | some t => simp [outcomeAt, hi, trackProc, h i t hi, Outcome.sent]

/-- C6, as the code has it: when a first run of `extractTracks` returned nil and no file it
found in place is missing afterwards, a second run on the same source, profile, tracks and
output directory invokes the engine zero times and returns nil. -/
theorem extractTracks_second_run (env : Env) (r1 r2 : Run)
    (dvdPath handbrakePath handbrakePreset : String) (tracks : List Track)
    (sched1 sched2 : List Nat) (hs1 : sched1.Perm (List.range tracks.length))
    (hkept : NoFilesRemoved r1 r2)
    (hfirst : extractTracks env r1 dvdPath handbrakePath handbrakePreset tracks sched1 = none) :
    invocations env r2 dvdPath handbrakePath handbrakePreset tracks = 0
      ∧ extractTracks env r2 dvdPath handbrakePath handbrakePreset tracks sched2 = none := by
  have hp := channel_perm env r1 dvdPath handbrakePath handbrakePreset tracks sched1 hs1
  have hnil : failures env r1 dvdPath handbrakePath handbrakePreset tracks = [] := by
    rw [extractTracks_eq] at hfirst
    by_cases hc : channel env r1 dvdPath handbrakePath handbrakePreset tracks sched1 = []
    · rw [hc] at hp
      exact hp.nil_eq.symm
    · rw [if_neg hc] at hfirst
      cases hfirst
  have hall : ∀ i t, tracks[i]? = some t →
      r2.statBefore i (outputFile env dvdPath handbrakePreset t) = true := by
    intro i t hi
    rcases (failures_eq_nil_iff env r1 dvdPath handbrakePath handbrakePreset tracks).mp hnil
      i t hi with hb | ⟨-, ha⟩
    · exact hkept i _ (Or.inl hb)
    · exact hkept i _ (Or.inr ha)
  refine ⟨invocations_eq_zero env r2 dvdPath handbrakePath handbrakePreset tracks hall, ?_⟩
  rw [extractTracks_eq,
    channel_eq_nil_of_skipped env r2 dvdPath handbrakePath handbrakePreset tracks sched2 hall]
  rfl

/-- C6 on three tracks: a first run converts them all, the second run finds the files. -/
theorem extractTracks_second_run_witness :
    extractTracks demoEnv convertingRun "/mnt/dvd" "/usr/bin/HandBrakeCLI" "HQ" threeTracks
        [1, 2, 0] = none
      ∧ invocations demoEnv convertingRun "/mnt/dvd" "/usr/bin/HandBrakeCLI" "HQ" threeTracks = 3
      ∧ invocations demoEnv doneRun "/mnt/dvd" "/usr/bin/HandBrakeCLI" "HQ" threeTracks = 0
      ∧ extractTracks demoEnv doneRun "/mnt/dvd" "/usr/bin/HandBrakeCLI" "HQ" threeTracks
        [0, 1, 2] = none :=
  ⟨by decide, by decide,
    extractTracks_second_run demoEnv convertingRun doneRun "/mnt/dvd" "/usr/bin/HandBrakeCLI"
      "HQ" threeTracks [1, 2, 0] [0, 1, 2] (by decide) (fun _ _ _ => rfl) (by decide)⟩

/-- C6 as stated fails: with an engine that fails and writes nothing, no file is removed
between two runs, yet the second run invokes the engine again and returns an error. -/
theorem second_run_retries :
    NoFilesRemoved failingRun failingRun
      ∧ extractTracks demoEnv failingRun "/mnt/dvd" "/usr/bin/HandBrakeCLI" "HQ" [⟨"1", 10⟩] [0]
        = some "exit status 1\n"
      ∧ invocations demoEnv failingRun "/mnt/dvd" "/usr/bin/HandBrakeCLI" "HQ" [⟨"1", 10⟩] = 1 := by
  refine ⟨?_, by decide, by decide⟩
  intro i p h
  rcases h with h | h <;> cases h

/-- C7, as the code has it: for a track without a file at its output path before the run,
whose engine run reports success and whose output file is still missing afterwards,
`extractTracks` records the failure `Failed to create track <outputFile>`, returns an error,
and the text of the error contains that message followed by a newline. -/
theorem extractTracks_missing_output (env : Env) (r : Run)
    (dvdPath handbrakePath handbrakePreset : String) (tracks : List Track) (sched : List Nat)
    (hs : sched.Perm (List.range tracks.length)) (i : Nat) (t : Track)
    (hi : tracks[i]? = some t)
    (hb : r.statBefore i (outputFile env dvdPath handbrakePreset t) = false)
    (hr : r.run i (commandLine env dvdPath handbrakePath handbrakePreset t) = none)
    (ha : r.statAfter i (outputFile env dvdPath handbrakePreset t) = false) :
    ("Failed to create track " ++ outputFile env dvdPath handbrakePreset t)
        ∈ failures env r dvdPath handbrakePath handbrakePreset tracks
      ∧ ∃ msg, extractTracks env r dvdPath handbrakePath handbrakePreset tracks sched = some msg
        ∧ ("Failed to create track " ++ outputFile env dvdPath handbrakePreset t ++ "\n").data
          <:+: msg.data := by
  have hlt : i < tracks.length := by
    by_contra hge
    rw [List.getElem?_eq_none (Nat.le_of_not_lt hge)] at hi
    cases hi
  have hsent : (outcomeAt env r dvdPath handbrakePath handbrakePreset tracks i).bind Outcome.sent
      = some ("Failed to create track " ++ outputFile env dvdPath handbrakePreset t) := by
    simp [outcomeAt, hi, trackProc, hb, hr, ha, Outcome.sent]
  have hmemF : ("Failed to create track " ++ outputFile env dvdPath handbrakePreset t)
      ∈ failures env r dvdPath handbrakePath handbrakePreset tracks :=
    List.mem_filterMap.mpr ⟨i, List.mem_range.mpr hlt, hsent⟩
  have hmemC : ("Failed to create track " ++ outputFile env dvdPath handbrakePreset t)
      ∈ channel env r dvdPath handbrakePath handbrakePreset tracks sched :=
    (channel_perm env r dvdPath handbrakePath handbrakePreset tracks sched hs).mem_iff.mpr hmemF
  refine ⟨hmemF, drain (channel env r dvdPath handbrakePath handbrakePreset tracks sched) "", ?_, ?_⟩
  · rw [extractTracks_eq, if_neg (List.ne_nil_of_mem hmemC)]
  · rw [drain_data]
    have hin : ("Failed to create track " ++ outputFile env dvdPath handbrakePreset t ++ "\n").data
        ∈ (channel env r dvdPath handbrakePath handbrakePreset tracks sched).map
            fun e => e.data ++ ['\n'] :=
      List.mem_map.mpr ⟨_, hmemC, by simp⟩
    have := List.infix_of_mem_flatten hin
    simpa using this

/-- C7 on one track whose engine reports success without writing the file. -/
theorem extractTracks_missing_output_witness :
    ("Failed to create track " ++ outputFile demoEnv "/mnt/dvd" "HQ" ⟨"1", 10⟩)
        ∈ failures demoEnv silentRun "/mnt/dvd" "/usr/bin/HandBrakeCLI" "HQ" [⟨"1", 10⟩]
      ∧ ∃ msg, extractTracks demoEnv silentRun "/mnt/dvd" "/usr/bin/HandBrakeCLI" "HQ"
          [⟨"1", 10⟩] [0] = some msg
        ∧ ("Failed to create track " ++ outputFile demoEnv "/mnt/dvd" "HQ" ⟨"1", 10⟩ ++ "\n").data
          <:+: msg.data :=
  extractTracks_missing_output demoEnv silentRun "/mnt/dvd" "/usr/bin/HandBrakeCLI" "HQ"
    [⟨"1", 10⟩] [0] (by decide) 0 ⟨"1", 10⟩ rfl rfl rfl rfl

/-- C7 as stated fails: the text of the error is `Failed to create track ...` with a capital
letter, and does not contain `failed to create track <outputFile>`. -/
theorem missing_output_capital :
    outputFile demoEnv "/mnt/dvd" "HQ" ⟨"1", 10⟩ = "/home/u/Desktop/HQ_dvd_1.mp4"
      ∧ extractTracks demoEnv silentRun "/mnt/dvd" "/usr/bin/HandBrakeCLI" "HQ" [⟨"1", 10⟩] [0]
        = some "Failed to create track /home/u/Desktop/HQ_dvd_1.mp4\n"
      ∧ ¬ ("failed to create track /home/u/Desktop/HQ_dvd_1.mp4".data
          <:+: "Failed to create track /home/u/Desktop/HQ_dvd_1.mp4\n".data) := by
  decide

end Braker
